import Mathlib

/-!
Verification of the stormtrooper streaming / orchestration core.

The definitions below are shallow embeddings of the Go sources:
  * `internal/llm` stream accumulation (stream.go, types.go) — two divergent
    copies of the finalization exist in the repository; both are embedded
    (`DeltaAccumulator.Message` for the plain version and
    `DeltaAccumulator.MessageStrip` for the version that strips leaked
    tool-call content).
  * `internal/agent` orchestrator loop and tool dispatch (agent.go).
  * `internal/permission` line-prompt checker.
  * `internal/tui` event-loop reader discipline and permission key handling
    (app.go, bridge.go), modelled as explicit state machines.

Go strings are modelled as Lean `String`; byte positions coincide with
character positions on the ASCII data the claims exercise, and this is noted
wherever the Go code indexes bytes. Go maps keyed by `int` are modelled as
association lists with Go map semantics (insert-or-update, key set unordered;
the finalization never depends on entry order). Effects (writes to stdout,
channel sends, invoking a tool) are reified as explicit result values.
-/

namespace Stormtrooper

/-! ## Wire types (internal/llm/types.go) -/

/-- FunctionCall contains the function name and arguments from a tool call. -/
structure FunctionCall where
  name : String
  arguments : String
deriving Repr, DecidableEq

/-- ToolCall represents an LLM-requested tool invocation. -/
structure ToolCall where
  id : String
  type : String
  function : FunctionCall
deriving Repr, DecidableEq

/-- ToolCallDelta is a streaming tool call fragment with an index field to
track which tool call is being continued across chunks. Go declares the index
as `int`; it is modelled as `Int`. -/
structure ToolCallDelta where
  index : Int
  id : String
  type : String
  function : FunctionCall
deriving Repr, DecidableEq

/-- MessageDelta contains incremental content from a streaming chunk. -/
structure MessageDelta where
  role : String
  content : String
  toolCalls : List ToolCallDelta
deriving Repr, DecidableEq

/-- ChunkChoice represents a streaming delta choice (the finish reason plays
no role in accumulation and is omitted). -/
structure ChunkChoice where
  delta : MessageDelta
deriving Repr, DecidableEq

/-- ChatCompletionChunk is a single chunk from a streaming response. -/
structure ChatCompletionChunk where
  choices : List ChunkChoice
deriving Repr, DecidableEq

/-- Message represents a chat message in the conversation. -/
structure Message where
  role : String
  content : String
  toolCalls : List ToolCall
  toolCallId : String := ""
  name : String := ""
deriving Repr, DecidableEq

/-! ## Go map on Int keys, as an association list -/

/-- Lookup in the accumulator's `map[int]*ToolCall`. -/
def mapLookup : List (Int × ToolCall) → Int → Option ToolCall
  | [], _ => none
  | (k, v) :: rest, i => if k = i then some v else mapLookup rest i

/-- Insert-or-update for the accumulator's `map[int]*ToolCall` (Go map
assignment `m[k] = v`; mutation through the stored pointer has the same
effect). -/
def mapUpdate : List (Int × ToolCall) → Int → ToolCall → List (Int × ToolCall)
  | [], k, v => [(k, v)]
  | (k2, v2) :: rest, k, v =>
      if k2 = k then (k, v) :: rest else (k2, v2) :: mapUpdate rest k v

/-! ## Delta accumulation (internal/llm/stream.go) -/

/-- DeltaAccumulator collects streaming deltas into a final Message. -/
structure DeltaAccumulator where
  role : String
  content : String
  toolCalls : List (Int × ToolCall)
deriving Repr, DecidableEq

/-- NewDeltaAccumulator creates a new accumulator. -/
def NewDeltaAccumulator : DeltaAccumulator := { role := "", content := "", toolCalls := [] }

/-- One iteration of the `for _, tcd := range d.ToolCalls` body of
`DeltaAccumulator.Add`: first fragment for an index establishes the entry,
a later fragment overwrites id and type when non-empty and appends name and
argument text. -/
def applyToolCallDelta (m : List (Int × ToolCall)) (tcd : ToolCallDelta) :
    List (Int × ToolCall) :=
  match mapLookup m tcd.index with
  | none =>
      mapUpdate m tcd.index
        { id := tcd.id, type := tcd.type,
          function := { name := tcd.function.name, arguments := tcd.function.arguments } }
  | some existing =>
      mapUpdate m tcd.index
        { id := if tcd.id ≠ "" then tcd.id else existing.id
          type := if tcd.type ≠ "" then tcd.type else existing.type
          function :=
            { name :=
                if tcd.function.name ≠ "" then
                  existing.function.name ++ tcd.function.name
                else existing.function.name
              arguments := existing.function.arguments ++ tcd.function.arguments } }

/-- The per-choice body of `DeltaAccumulator.Add`: overwrite the role when a
fragment supplies one, append non-empty content, merge tool-call fragments. -/
def applyDelta (a : DeltaAccumulator) (d : MessageDelta) : DeltaAccumulator :=
  { role := if d.role ≠ "" then d.role else a.role
    content := if d.content ≠ "" then a.content ++ d.content else a.content
    toolCalls := d.toolCalls.foldl applyToolCallDelta a.toolCalls }

/-- Add processes a single streaming chunk (loop over `chunk.Choices`). -/
def DeltaAccumulator.Add (a : DeltaAccumulator) (chunk : ChatCompletionChunk) :
    DeltaAccumulator :=
  chunk.choices.foldl (fun acc choice => applyDelta acc choice.delta) a

/-- `maxIdx` computation of `DeltaAccumulator.Message`: starts at 0 and takes
the maximum over the map keys. -/
def maxKey (m : List (Int × ToolCall)) : Int :=
  m.foldl (fun mx p => if p.1 > mx then p.1 else mx) 0

/-- The finalization loop `for i := 0; i <= maxIdx; i++` that collects the
tool calls present in the map in ascending index order. -/
def orderedToolCalls (m : List (Int × ToolCall)) : List ToolCall :=
  (List.range ((maxKey m).toNat + 1)).filterMap (fun i => mapLookup m (Int.ofNat i))

/-- Message returns the accumulated complete Message (the plain version of the
finalization, internal/llm/stream.go of the copy without content cleaning). -/
def DeltaAccumulator.Message (a : DeltaAccumulator) : Message :=
  if a.toolCalls.isEmpty then
    { role := a.role, content := a.content, toolCalls := [] }
  else
    { role := a.role, content := a.content, toolCalls := orderedToolCalls a.toolCalls }

/-! ## String helpers shared by both divergent finalizations and the agent
filter (Go `strings.ReplaceAll`, `strings.TrimSpace`, and friends) -/

/-- Whether the list begins with the given pattern. -/
def listStartsWith [DecidableEq α] : List α → List α → Bool
  | _, [] => true
  | [], _ :: _ => false
  | a :: as, b :: bs => a = b && listStartsWith as bs

/-- Replacement engine for `strings.ReplaceAll`: scan left to right, replace
each non-overlapping occurrence of `pat`. The fuel starts at the length of the
text; every step consumes at least one character, so the fuel never runs out on
the initial call. -/
def replaceFuel (pat repl : List α) [DecidableEq α] : Nat → List α → List α
  | 0, cs => cs
  | _ + 1, [] => []
  | n + 1, c :: cs =>
      if pat ≠ [] && listStartsWith (c :: cs) pat then
        repl ++ replaceFuel pat repl n (List.drop (pat.length - 1) cs)
      else
        c :: replaceFuel pat repl n cs

/-- `strings.ReplaceAll(s, pat, repl)`. For an empty pattern Go interleaves
the replacement between characters; the call sites in this repository only
pass the fixed non-empty special tokens, so the empty-pattern case is modelled
as the identity. -/
def goReplaceAll (s pat repl : String) : String :=
  if pat = "" then s
  else String.mk (replaceFuel pat.data repl.data s.data.length s.data)

/-- The white-space predicate of Go `unicode.IsSpace`: Latin-1 space
characters plus the higher Unicode White_Space code points. -/
def isGoSpace (c : Char) : Bool :=
  c.toNat = 9 || c.toNat = 10 || c.toNat = 11 || c.toNat = 12 || c.toNat = 13 ||
  c.toNat = 32 || c.toNat = 133 || c.toNat = 160 ||
  c.toNat = 5760 || (8192 ≤ c.toNat && c.toNat ≤ 8202) ||
  c.toNat = 8232 || c.toNat = 8233 || c.toNat = 8239 || c.toNat = 8287 ||
  c.toNat = 12288

/-- `strings.TrimSpace`: drop leading and trailing white space. -/
def goTrimSpace (s : String) : String :=
  String.mk (((s.data.dropWhile isGoSpace).reverse.dropWhile isGoSpace).reverse)

/-- Position of the first occurrence of a character (Go `strings.Index` with a
one-character pattern; a zero byte index coincides with a zero character
index, and the only use is a comparison with zero). -/
def idxOfChar : List Char → Char → Option Nat
  | [], _ => none
  | c :: cs, t => if c = t then some 0 else (idxOfChar cs t).map Nat.succ

/-- `strings.HasPrefix`. -/
def strStarts (s t : String) : Bool := listStartsWith s.data t.data

/-- `strings.HasSuffix`. -/
def strEnds (s t : String) : Bool := listStartsWith s.data.reverse t.data.reverse

/-- knownSpecialTokens of the cleaning copy of stream.go: model-specific
tokens that should never appear in user-visible content. -/
def knownSpecialTokens : List String :=
  ["<|tool_call_end|>", "<|tool_call_start|>", "<|function|>", "<|tool_sep|>", "<|im_end|>"]

/-- looksLikeToolCallJSON: a trimmed string that is a pure JSON object, or a
function name followed by a JSON object. -/
def looksLikeToolCallJSON (s : String) : Bool :=
  let t := goTrimSpace s
  if t.data.length = 0 then false
  else if strStarts t "\x7b" && strEnds t "\x7d" then true
  else
    match idxOfChar t.data '\x7b' with
    | some i => 0 < i && strEnds t "\x7d"
    | none => false

/-- cleanToolCallContent removes leaked tool call artifacts from content when
the response includes tool calls: strip the known special tokens, trim, and
discard the rest entirely when it looks like tool call JSON. -/
def cleanToolCallContent (s : String) : String :=
  let s := knownSpecialTokens.foldl (fun acc tok => goReplaceAll acc tok "") s
  let s := goTrimSpace s
  if looksLikeToolCallJSON s then "" else s

/-- Message of the divergent cleaning copy of stream.go: identical to
`DeltaAccumulator.Message` except that when tool calls are present the content
is passed through `cleanToolCallContent`. -/
def DeltaAccumulator.MessageStrip (a : DeltaAccumulator) : Stormtrooper.Message :=
  if a.toolCalls.isEmpty then
    { role := a.role, content := a.content, toolCalls := [] }
  else
    { role := a.role, content := cleanToolCallContent a.content,
      toolCalls := orderedToolCalls a.toolCalls }

/-! ## Streaming client callback order (internal/llm/client.go,
`Client.ChatCompletionStream`)

The SSE handler passed to `ParseSSEStream` is
`func(chunk) { acc.Add(chunk); if callback != nil { callback(chunk) } }`.
`streamTraceAux` reifies this loop: for each parsed chunk it first folds the
chunk into the accumulator and then records the observation the display
callback makes — the accumulator state current at the moment of the call,
paired with the chunk passed to the callback. -/

/-- The callback loop of `ChatCompletionStream` starting from accumulator
state `acc`: entry `(a, c)` means the callback for chunk `c` runs while the
accumulator holds state `a`. -/
def streamTraceAux (acc : DeltaAccumulator) :
    List ChatCompletionChunk → List (DeltaAccumulator × ChatCompletionChunk)
  | [] => []
  | c :: cs =>
      let acc2 := acc.Add c
      (acc2, c) :: streamTraceAux acc2 cs

/-- Observations made by the `onDelta` callback over a whole parsed stream,
starting from `NewDeltaAccumulator` as the client does. -/
def streamCallbackTrace (chunks : List ChatCompletionChunk) :
    List (DeltaAccumulator × ChatCompletionChunk) :=
  streamTraceAux NewDeltaAccumulator chunks

/-- The accumulated message `ChatCompletionStream` returns once the stream
ends. -/
def chatCompletionStreamResult (chunks : List ChatCompletionChunk) : Message :=
  (chunks.foldl DeltaAccumulator.Add NewDeltaAccumulator).Message

/-! ## Orchestrator display filter (internal/agent/agent.go, the stream
callback built inside `Agent.loop`) -/

/-- specialTokens of agent.go (a second copy of the token list, kept separate
to mirror the source). -/
def specialTokens : List String :=
  ["<|tool_call_end|>", "<|tool_call_start|>", "<|function|>", "<|tool_sep|>", "<|im_end|>"]

/-- stripSpecialTokens removes known model-specific special tokens from
content. -/
def stripSpecialTokens (s : String) : String :=
  specialTokens.foldl (fun acc tok => goReplaceAll acc tok "") s

/-- What one loop iteration of the agent's stream callback writes to stdout
for one choice: nothing when the choice carries tool-call deltas or empty
content, otherwise the content with special tokens stripped (the final
non-empty guard before `Fprint` cannot change the written text). -/
def displayedForChoice (choice : ChunkChoice) : String :=
  if choice.delta.toolCalls.length > 0 then ""
  else
    if choice.delta.content = "" then ""
    else
      let content := stripSpecialTokens choice.delta.content
      if content ≠ "" then content else ""

/-- The full text the agent's stream callback writes for one chunk. -/
def agentCallbackOutput (chunk : ChatCompletionChunk) : String :=
  chunk.choices.foldl (fun out choice => out ++ displayedForChoice choice) ""

/-! ## Tool dispatch (internal/agent/agent.go `Agent.executeTool`,
internal/tool/registry.go, the Tool interface of internal/tool) -/

/-- PermissionLevel controls whether a tool requires user approval. -/
inductive PermissionLevel where
  | auto
  | prompt
deriving Repr, DecidableEq

/-- A registered tool: its descriptor data plus its behaviour. `hasPreview`
is whether the concrete type implements the optional `Previewer` interface,
and `execute` returns Go's `(string, error)` pair as an `Except`. -/
structure ToolImpl where
  name : String
  permission : PermissionLevel
  hasPreview : Bool
  preview : String → String
  execute : String → Except String String

/-- `Registry.Get`: map lookup by name (`Register` panics on a duplicate name,
so names are unique and first-match lookup agrees with the Go map). -/
def registryGet : List ToolImpl → String → Option ToolImpl
  | [], _ => none
  | t :: ts, n => if t.name = n then some t else registryGet ts n

/-- truncateArgs shortens a JSON arguments string for display (Go slices
bytes; on the ASCII arguments exercised here character positions coincide). -/
def truncateArgs (s : String) (maxLen : Nat) : String :=
  if s.length ≤ maxLen then s else (String.mk (s.data.take maxLen)) ++ "..."

/-- The preview `executeTool` builds for a requires-approval tool: the
descriptor-specific generator when the tool implements `Previewer`, else the
generic `name(truncated args)` form. -/
def toolPreview (t : ToolImpl) (tc : ToolCall) : String :=
  if t.hasPreview then t.preview tc.function.arguments
  else tc.function.name ++ "(" ++ truncateArgs tc.function.arguments 200 ++ ")"

/-- The outcome of `Agent.executeTool`: the result text fed back into the
conversation, plus whether the underlying `Execute` was invoked. The Go
function returns only a string — tool failure and permission denial are
conversational results, never an orchestrator-level error. -/
structure ExecuteToolResult where
  result : String
  executeInvoked : Bool
deriving Repr, DecidableEq

/-- The `Execute` call at the tail of `executeTool`, with tool errors captured
as `Tool error: …` result text. -/
def runTool (t : ToolImpl) (tc : ToolCall) : ExecuteToolResult :=
  match t.execute tc.function.arguments with
  | Except.error e => { result := "Tool error: " ++ e, executeInvoked := true }
  | Except.ok r => { result := r, executeInvoked := true }

/-- executeTool handles a single tool call: lookup, permission check,
execution. `permCheck` is the permission handler's `Check`. -/
def executeTool (registry : List ToolImpl) (permCheck : String → String → Bool)
    (tc : ToolCall) : ExecuteToolResult :=
  match registryGet registry tc.function.name with
  | none => { result := "Unknown tool: " ++ tc.function.name, executeInvoked := false }
  | some t =>
      if t.permission = PermissionLevel.prompt then
        if ¬ permCheck tc.function.name (toolPreview t tc) then
          { result := "Permission denied by user", executeInvoked := false }
        else runTool t tc
      else runTool t tc

/-! ## Orchestrator loop (internal/agent/agent.go `Agent.loop` / `Agent.Send`)

The network is modelled as a script: the list entry consumed at each
iteration is the outcome of that iteration's `ChatCompletionStream` call
(`Except.ok` the accumulated message, `Except.error` a transport or stream
failure). The context is modelled by `ctxErrAt i`, the value of `ctx.Err()`
at the cancellation check at the top of loop iteration `i` (`some e` when the
context is cancelled with error `e`). The returned pair carries the loop
result and the number of completion requests issued. -/

/-- The error classes `Agent.loop` can surface. `cancelled` wraps the context
error as `fmt.Errorf("agent cancelled: %w", err)` does; `llmFailed` covers
the `LLM request failed: %w` wrapping of transport and stream errors. -/
inductive AgentError where
  | cancelled (msg : String)
  | llmFailed (msg : String)
deriving Repr, DecidableEq

/-- The agent loop: check cancellation, issue one streaming completion,
append the assistant message, stop on a tool-call-free message, otherwise
dispatch every tool call in order, append the tool-role results and loop. -/
def agentLoopModel (registry : List ToolImpl) (permCheck : String → String → Bool)
    (ctxErrAt : Nat → Option String) :
    Nat → List (Except String Message) → List Message →
    Except AgentError (List Message) × Nat
  | iter, [], _history =>
    match ctxErrAt iter with
    | some e => (Except.error (AgentError.cancelled ("agent cancelled: " ++ e)), 0)
    | none => (Except.error (AgentError.llmFailed "stream error"), 1)
  | iter, r :: rest, history =>
    match ctxErrAt iter with
    | some e => (Except.error (AgentError.cancelled ("agent cancelled: " ++ e)), 0)
    | none =>
        match r with
        | Except.error e =>
            (Except.error (AgentError.llmFailed ("LLM request failed: " ++ e)), 1)
        | Except.ok msg =>
            let hist2 := history ++ [msg]
            if msg.toolCalls.isEmpty then (Except.ok hist2, 1)
            else
              let hist3 := hist2 ++ msg.toolCalls.map (fun tc =>
                { role := "tool", content := (executeTool registry permCheck tc).result,
                  toolCalls := [], toolCallId := tc.id, name := tc.function.name })
              let rec2 := agentLoopModel registry permCheck ctxErrAt (iter + 1) rest hist3
              (rec2.1, rec2.2 + 1)

/-- `Agent.Send`: append the user message, then run the loop. -/
def agentSendModel (registry : List ToolImpl) (permCheck : String → String → Bool)
    (ctxErrAt : Nat → Option String) (responses : List (Except String Message))
    (history : List Message) (userText : String) :
    Except AgentError (List Message) × Nat :=
  agentLoopModel registry permCheck ctxErrAt 0 responses
    (history ++ [{ role := "user", content := userText, toolCalls := [] }])

/-! ## Front-end event loop reader discipline (internal/tui/app.go)

`WaitForEvent` (bridge.go) blocks reading the bridge's single event channel
and delivers the event as the next message. The model below counts the
outstanding `WaitForEvent` readers: `App.Init` arms exactly one; each
`App.Update` branch consumes one reader when its message is a bridge-channel
event, and arms as many new readers as the branch puts into its command
batch. The counts are read off the `switch` in `App.Update`. -/

/-- The message kinds distinguished by `App.Update` (agentDone comes from the
`runAgent` command, not from the bridge channel). -/
inductive TeaMsg where
  | windowSize
  | key
  | send
  | token
  | toolStart
  | toolResult
  | permissionRequest
  | agentDone
  | subAgentSpawn
  | subAgentDone
  | other
deriving Repr, DecidableEq

/-- Whether delivering this message consumes an outstanding `WaitForEvent`
reader (true exactly for events that arrive over the bridge channel). -/
def consumesReader : TeaMsg → Bool
  | TeaMsg.token => true
  | TeaMsg.toolStart => true
  | TeaMsg.toolResult => true
  | TeaMsg.permissionRequest => true
  | TeaMsg.subAgentSpawn => true
  | TeaMsg.subAgentDone => true
  | _ => false

/-- How many `WaitForEvent` commands the corresponding `App.Update` branch
arms: one in the SendMsg branch and in every bridge-event branch, none in the
window-size, key, AgentDoneMsg and default branches. -/
def armsWaitForEvent : TeaMsg → Nat
  | TeaMsg.send => 1
  | TeaMsg.token => 1
  | TeaMsg.toolStart => 1
  | TeaMsg.toolResult => 1
  | TeaMsg.permissionRequest => 1
  | TeaMsg.subAgentSpawn => 1
  | TeaMsg.subAgentDone => 1
  | _ => 0

/-- Outstanding-reader count after one `App.Update` step. -/
def stepReaders (n : Nat) (msg : TeaMsg) : Nat :=
  (n - (if consumesReader msg then 1 else 0)) + armsWaitForEvent msg

/-- `App.Init` batches `input.Init`, `sidebar.Init` and exactly one
`WaitForEvent`. -/
def initReaders : Nat := 1

/-- Outstanding readers after `App.Init` followed by the given `App.Update`
messages. -/
def readersAfter (msgs : List TeaMsg) : Nat :=
  msgs.foldl stepReaders initReaders

/-! ## Permission prompt key handling (internal/tui/app.go
`App.handlePermissionKey`)

The handler runs while `App.permReq` is non-nil. Its observable effects are:
the boolean written to the pending request's acknowledgment sink (if any),
whether `permReq` is cleared, and whether `tea.Quit` is issued. -/

/-- The key classes `handlePermissionKey` distinguishes. -/
inductive PermKey where
  | allow
  | deny
  | quit
  | other
deriving Repr, DecidableEq

/-- Observable outcome of one `handlePermissionKey` call. -/
structure PermKeyOutcome where
  resolved : Option Bool
  permReqCleared : Bool
  quitIssued : Bool
deriving Repr, DecidableEq

/-- `handlePermissionKey`: allow writes true to the sink and clears the
request; deny writes false and clears; quit returns `tea.Quit` without
touching the sink; every other key is ignored. -/
def handlePermissionKey : PermKey → PermKeyOutcome
  | PermKey.allow => { resolved := some true, permReqCleared := true, quitIssued := false }
  | PermKey.deny => { resolved := some false, permReqCleared := true, quitIssued := false }
  | PermKey.quit => { resolved := none, permReqCleared := false, quitIssued := true }
  | PermKey.other => { resolved := none, permReqCleared := false, quitIssued := false }

/-! ## Line-prompt permission handler (internal/permission `Checker.Check`)

Both copies of permission.go in the repository carry the identical body. The
input stream is modelled as the list of lines `bufio.Scanner` can still
deliver; an empty list is an exhausted (or immediately erroring) reader, for
which `Scan` reports false. -/

/-- `Checker.Check`: print the prompt (an effect outside this model), read one
line; approval iff the trimmed line is non-empty and starts with y or Y
(Go tests `len(line) > 0 && (line[0] == 'y' || line[0] == 'Y')`; the first
byte of a valid UTF-8 string equals y or Y exactly when its first character
does). -/
def checkerCheck (input : List String) : Bool :=
  match input with
  | [] => false
  | line :: _ =>
      match (goTrimSpace line).data with
      | [] => false
      | c :: _ => c = 'y' || c = 'Y'

/-! ## Specification-side helper functions and concrete data -/

/-- The fragment indices `0 ≤ i ≤ maxIdx` that hold an entry, in the order the
finalization loop of `Message` visits them. Relating `orderedToolCalls` to
this list captures that the tool-call list is ordered by ascending fragment
index and skips unused indices. -/
def presentIndices (m : List (Int × ToolCall)) : List Int :=
  (List.range ((maxKey m).toNat + 1)).filterMap
    (fun i => if (mapLookup m (Int.ofNat i)).isSome then some (Int.ofNat i) else none)

/-- Concatenation of a list of strings in order. -/
def concatAll : List String → String
  | [] => ""
  | s :: rest => s ++ concatAll rest

/-- A one-choice chunk carrying one tool-call fragment (test scaffolding for
concrete instances). -/
def mkToolChunk (role : String) (tcd : ToolCallDelta) : ChatCompletionChunk :=
  { choices := [{ delta := { role := role, content := "", toolCalls := [tcd] } }] }

/-- First fragment of the `[0, 1, 0]` scenario: index 0 starts. -/
def c1Frag1 : ToolCallDelta :=
  { index := 0, id := "call_1", type := "function",
    function := { name := "read_file", arguments := "ab" } }

/-- Second fragment: index 1 starts while index 0 is still incomplete. -/
def c1Frag2 : ToolCallDelta :=
  { index := 1, id := "call_2", type := "function",
    function := { name := "list_dir", arguments := "xy" } }

/-- Third fragment: a late argument continuation for index 0. -/
def c1Frag3 : ToolCallDelta :=
  { index := 0, id := "", type := "",
    function := { name := "", arguments := "cd" } }

/-- The `[0, 1, 0]` fragment arrival scenario as a chunk stream. -/
def c1Chunks : List ChatCompletionChunk :=
  [mkToolChunk "assistant" c1Frag1, mkToolChunk "" c1Frag2, mkToolChunk "" c1Frag3]

/-- A one-chunk stream with plain assistant content (concrete instance for the
callback-order analysis). -/
def demoChunk : ChatCompletionChunk :=
  { choices := [{ delta := { role := "assistant", content := "Hi", toolCalls := [] } }] }

/-- A requires-approval spy tool whose `execute` would report success if it
were ever invoked. -/
def spyTool : ToolImpl :=
  { name := "shell_exec", permission := PermissionLevel.prompt, hasPreview := false,
    preview := fun _ => "", execute := fun _ => Except.ok "spy ran" }

/-- A concrete call to the spy tool. -/
def spyCall : ToolCall :=
  { id := "call_9", type := "function",
    function := { name := "shell_exec", arguments := "rm -rf tmp" } }

/-- A concrete accumulator state holding one finished tool call plus leaked
content (concrete instance for the finalization comparison). -/
def c9Acc : DeltaAccumulator :=
  { role := "assistant", content := "done",
    toolCalls := [((0 : Int),
      { id := "c", type := "function",
        function := { name := "f", arguments := "a" } })] }

/-! # Theorems

First the association-list map lemmas, then the per-claim results. -/

theorem mapLookup_mapUpdate (m : List (Int × ToolCall)) (k : Int) (v : ToolCall) (i : Int) :
    mapLookup (mapUpdate m k v) i = if k = i then some v else mapLookup m i := by
  induction m with
  | nil => rfl
  | cons p rest ih =>
    obtain ⟨k2, v2⟩ := p
    by_cases h : k2 = k
    · subst h
      by_cases h2 : k2 = i <;> simp [mapUpdate, mapLookup, h2]
    · by_cases h2 : k2 = i
      · subst h2
        have hk : ¬ (k = k2) := fun hh => h hh.symm
        simp [mapUpdate, mapLookup, h, hk]
      · simp [mapUpdate, mapLookup, h, h2, ih]

theorem foldl_max_mapUpdate (m : List (Int × ToolCall)) (k : Int) (v w : ToolCall)
    (h : mapLookup m k = some w) (init : Int) :
    (mapUpdate m k v).foldl (fun mx p => if p.1 > mx then p.1 else mx) init
      = m.foldl (fun mx p => if p.1 > mx then p.1 else mx) init := by
  induction m generalizing init with
  | nil => simp [mapLookup] at h
  | cons p rest ih =>
    obtain ⟨k2, v2⟩ := p
    by_cases hk : k2 = k
    · subst hk
      simp [mapUpdate]
    · have h2 : mapLookup rest k = some w := by
        simpa [mapLookup, hk] using h
      simp [mapUpdate, hk, ih h2]

theorem maxKey_mapUpdate (m : List (Int × ToolCall)) (k : Int) (v w : ToolCall)
    (h : mapLookup m k = some w) :
    maxKey (mapUpdate m k v) = maxKey m :=
  foldl_max_mapUpdate m k v w h 0

theorem applyToolCallDelta_present (m : List (Int × ToolCall)) (tcd : ToolCallDelta)
    (w : ToolCall) (h : mapLookup m tcd.index = some w) :
    applyToolCallDelta m tcd = mapUpdate m tcd.index
      { id := if tcd.id ≠ "" then tcd.id else w.id
        type := if tcd.type ≠ "" then tcd.type else w.type
        function :=
          { name :=
              if tcd.function.name ≠ "" then w.function.name ++ tcd.function.name
              else w.function.name
            arguments := w.function.arguments ++ tcd.function.arguments } } := by
  simp [applyToolCallDelta, h]

theorem applyToolCallDelta_lookup_isSome (m : List (Int × ToolCall))
    (tcd : ToolCallDelta) (i : Int) :
    (mapLookup (applyToolCallDelta m tcd) i).isSome
      = if tcd.index = i then true else (mapLookup m i).isSome := by
  cases h : mapLookup m tcd.index <;>
    simp only [applyToolCallDelta, h, mapLookup_mapUpdate] <;>
    by_cases h2 : tcd.index = i <;> simp [h2]

theorem maxKey_applyToolCallDelta_present (m : List (Int × ToolCall))
    (tcd : ToolCallDelta) (w : ToolCall) (h : mapLookup m tcd.index = some w) :
    maxKey (applyToolCallDelta m tcd) = maxKey m := by
  rw [applyToolCallDelta_present m tcd w h]
  exact maxKey_mapUpdate m tcd.index _ w h

theorem presentIndices_applyToolCallDelta (m : List (Int × ToolCall))
    (tcd : ToolCallDelta) (h : (mapLookup m tcd.index).isSome = true) :
    presentIndices (applyToolCallDelta m tcd) = presentIndices m := by
  obtain ⟨w, hw⟩ := Option.isSome_iff_exists.mp h
  unfold presentIndices
  rw [maxKey_applyToolCallDelta_present m tcd w hw]
  have hfun : (fun i =>
      if (mapLookup (applyToolCallDelta m tcd) (Int.ofNat i)).isSome then
        some (Int.ofNat i) else none)
      = (fun i =>
        if (mapLookup m (Int.ofNat i)).isSome then some (Int.ofNat i) else none) := by
    funext i
    rw [applyToolCallDelta_lookup_isSome]
    by_cases h2 : tcd.index = Int.ofNat i
    · rw [← h2, h, if_pos rfl]
    · rw [if_neg h2]
  rw [hfun]

theorem pairwise_lt_filterMap_ofNat (l : List Nat) (f : Nat → Option Int)
    (hf : ∀ a b x y, a < b → f a = some x → f b = some y → x < y)
    (hl : l.Pairwise (fun i j => i < j)) :
    (l.filterMap f).Pairwise (fun i j => i < j) := by
  induction l with
  | nil => simp
  | cons a t ih =>
    rw [List.pairwise_cons] at hl
    obtain ⟨ha, ht⟩ := hl
    cases hfa : f a with
    | none => simpa [List.filterMap_cons, hfa] using ih ht
    | some x =>
      rw [List.filterMap_cons_some hfa, List.pairwise_cons]
      refine ⟨fun y hy => ?_, ih ht⟩
      obtain ⟨b, hb, hfb⟩ := List.mem_filterMap.mp hy
      exact hf a b x y (ha b hb) hfa hfb

theorem presentIndices_sorted (m : List (Int × ToolCall)) :
    (presentIndices m).Pairwise (fun i j => i < j) := by
  unfold presentIndices
  refine pairwise_lt_filterMap_ofNat _ _ ?_ (List.pairwise_lt_range _)
  intro a b x y hab hx hy
  by_cases ha : (mapLookup m (Int.ofNat a)).isSome
  · rw [if_pos ha] at hx
    by_cases hb : (mapLookup m (Int.ofNat b)).isSome
    · rw [if_pos hb] at hy
      rw [← Option.some_inj.mp hx, ← Option.some_inj.mp hy]
      exact Int.ofNat_lt.mpr hab
    · rw [if_neg hb] at hy
      exact absurd hy (by simp)
  · rw [if_neg ha] at hx
    exact absurd hx (by simp)

theorem orderedToolCalls_eq_filterMap (m : List (Int × ToolCall)) :
    orderedToolCalls m = (presentIndices m).filterMap (mapLookup m) := by
  unfold orderedToolCalls presentIndices
  rw [List.filterMap_filterMap]
  have hfun : (fun i =>
      (if (mapLookup m (Int.ofNat i)).isSome then some (Int.ofNat i) else none).bind
        (mapLookup m))
      = fun i => mapLookup m (Int.ofNat i) := by
    funext i
    cases h : mapLookup m (Int.ofNat i) with
    | none => simp [h]
    | some v => simp only [h, Option.isSome_some, if_true, Option.some_bind]
  rw [hfun]

theorem message_toolCalls_eq (a : DeltaAccumulator) :
    (a.Message).toolCalls
      = (presentIndices a.toolCalls).filterMap (mapLookup a.toolCalls) := by
  unfold DeltaAccumulator.Message
  by_cases h : a.toolCalls.isEmpty
  · have hnil : a.toolCalls = [] := by
      cases hh : a.toolCalls
      · rfl
      · rw [hh] at h; simp [List.isEmpty] at h
    rw [if_pos h, hnil]
    rfl
  · rw [if_neg h]
    exact orderedToolCalls_eq_filterMap a.toolCalls

/-- Claim C1: for every accumulator state reachable from any arrival order of
tool-call fragments, the final message's tool-call list is produced by
iterating the indices 0..max observed in ascending order and skipping unused
indices (`presentIndices` is strictly increasing and the message's list is
exactly the map entries along it); a late-arriving continuation for an index
already seen leaves the index skeleton — hence the ordering — unchanged; and
for fragments arriving with indices [0, 1, 0] the final list has length 2,
ordered [index 0, index 1], with index 0's arguments the concatenation of its
two fragments. -/
theorem deltaAccumulator_toolCallOrder
    (m : List (Int × ToolCall)) (tcd : ToolCallDelta)
    (hpresent : (mapLookup m tcd.index).isSome = true) :
    (∀ a : DeltaAccumulator,
        (presentIndices a.toolCalls).Pairwise (fun i j => i < j)
        ∧ (a.Message).toolCalls
            = (presentIndices a.toolCalls).filterMap (mapLookup a.toolCalls))
    ∧ presentIndices (applyToolCallDelta m tcd) = presentIndices m
    ∧ ((c1Chunks.foldl DeltaAccumulator.Add NewDeltaAccumulator).Message).toolCalls
        = [{ id := "call_1", type := "function",
             function := { name := "read_file", arguments := "abcd" } },
           { id := "call_2", type := "function",
             function := { name := "list_dir", arguments := "xy" } }] :=
  ⟨fun a => ⟨presentIndices_sorted a.toolCalls, message_toolCalls_eq a⟩,
   presentIndices_applyToolCallDelta m tcd hpresent,
   by decide⟩

/-- Witness for C1: the hypothesis holds at the concrete map that already has
an entry at index 0, so the late continuation `c1Frag3` leaves the index list
unchanged. -/
theorem deltaAccumulator_toolCallOrder_witness :
    presentIndices (applyToolCallDelta
        [((0 : Int), { id := "call_1", type := "function",
                       function := { name := "read_file", arguments := "ab" } })] c1Frag3)
      = presentIndices
        [((0 : Int), { id := "call_1", type := "function",
                       function := { name := "read_file", arguments := "ab" } })] :=
  (deltaAccumulator_toolCallOrder _ c1Frag3 (by decide)).2.1

/-! ## Accumulation lemmas for text-only streams -/

theorem applyDelta_content (a : DeltaAccumulator) (d : MessageDelta) :
    (applyDelta a d).content = a.content ++ d.content := by
  unfold applyDelta
  by_cases h : d.content = ""
  · simp [h]
  · simp [h]

theorem applyDelta_toolCalls_nil (a : DeltaAccumulator) (d : MessageDelta)
    (h : d.toolCalls = []) :
    (applyDelta a d).toolCalls = a.toolCalls := by
  unfold applyDelta
  rw [h]
  rfl

theorem foldl_applyDelta_content (ds : List MessageDelta) (a : DeltaAccumulator) :
    (ds.foldl applyDelta a).content = a.content ++ concatAll (ds.map MessageDelta.content) := by
  induction ds generalizing a with
  | nil => simp [concatAll]
  | cons d rest ih =>
      rw [List.foldl_cons, ih, applyDelta_content, List.map_cons]
      show a.content ++ d.content ++ concatAll (rest.map MessageDelta.content)
        = a.content ++ concatAll (d.content :: rest.map MessageDelta.content)
      rw [String.append_assoc]
      rfl

theorem foldl_applyDelta_toolCalls_nil (ds : List MessageDelta) (a : DeltaAccumulator)
    (h : ∀ d ∈ ds, d.toolCalls = []) :
    (ds.foldl applyDelta a).toolCalls = a.toolCalls := by
  induction ds generalizing a with
  | nil => rfl
  | cons d rest ih =>
      rw [List.foldl_cons, ih _ (fun x hx => h x (List.mem_cons_of_mem d hx)),
        applyDelta_toolCalls_nil a d (h d (List.mem_cons_self d rest))]

theorem add_eq_foldl_applyDelta (a : DeltaAccumulator) (choices : List ChunkChoice) :
    DeltaAccumulator.Add a { choices := choices }
      = (choices.map ChunkChoice.delta).foldl applyDelta a := by
  unfold DeltaAccumulator.Add
  rw [List.foldl_map]

theorem foldl_add_batches (batches : List (List MessageDelta)) (a : DeltaAccumulator) :
    ((batches.map (fun b => ChatCompletionChunk.mk (b.map ChunkChoice.mk))).foldl
        DeltaAccumulator.Add a)
      = batches.flatten.foldl applyDelta a := by
  induction batches generalizing a with
  | nil => rfl
  | cons b rest ih =>
      rw [List.map_cons, List.foldl_cons, List.flatten_cons, List.foldl_append, ih,
        add_eq_foldl_applyDelta, List.map_map]
      have hmap : List.map (ChunkChoice.delta ∘ ChunkChoice.mk) b = b := by
        induction b with
        | nil => rfl
        | cons x xs ihb => rw [List.map_cons, ihb]; rfl
      rw [hmap]

theorem flatten_map_singleton (ds : List MessageDelta) :
    (ds.map (fun d => [d])).flatten = ds := by
  induction ds with
  | nil => rfl
  | cons d rest ih => rw [List.map_cons, List.flatten_cons, ih]; rfl

theorem message_content_eq (a : DeltaAccumulator) : (a.Message).content = a.content := by
  unfold DeltaAccumulator.Message
  by_cases h : a.toolCalls.isEmpty <;> simp [h]

/-- Claim C6: for any stream of text-only deltas (no tool-call fragments), the
accumulated message content is the concatenation of the deltas in emission
order, the message carries no tool calls, and the result is independent of
how the deltas are batched into chunks — accumulating the batch-shaped chunk
list equals accumulating one singleton chunk per delta. -/
theorem textOnly_content_concat (batches : List (List MessageDelta))
    (h : ∀ d ∈ batches.flatten, d.toolCalls = []) :
    (((batches.map (fun b => ChatCompletionChunk.mk (b.map ChunkChoice.mk))).foldl
        DeltaAccumulator.Add NewDeltaAccumulator).Message).content
      = concatAll (batches.flatten.map MessageDelta.content)
    ∧ (((batches.map (fun b => ChatCompletionChunk.mk (b.map ChunkChoice.mk))).foldl
        DeltaAccumulator.Add NewDeltaAccumulator).Message).toolCalls = []
    ∧ ((batches.map (fun b => ChatCompletionChunk.mk (b.map ChunkChoice.mk))).foldl
        DeltaAccumulator.Add NewDeltaAccumulator)
      = ((batches.flatten.map (fun d => ChatCompletionChunk.mk [ChunkChoice.mk d])).foldl
        DeltaAccumulator.Add NewDeltaAccumulator) := by
  refine ⟨?_, ?_, ?_⟩
  · rw [message_content_eq, foldl_add_batches, foldl_applyDelta_content]
    rfl
  · have htc : (((batches.map (fun b => ChatCompletionChunk.mk (b.map ChunkChoice.mk))).foldl
        DeltaAccumulator.Add NewDeltaAccumulator)).toolCalls = [] := by
      rw [foldl_add_batches]
      exact foldl_applyDelta_toolCalls_nil _ _ h
    unfold DeltaAccumulator.Message
    rw [htc]
    rfl
  · have hb : ((batches.flatten.map (fun d => [d])).map
        (fun b => ChatCompletionChunk.mk (b.map ChunkChoice.mk)))
        = batches.flatten.map (fun d => ChatCompletionChunk.mk [ChunkChoice.mk d]) := by
      rw [List.map_map]
      rfl
    rw [foldl_add_batches, ← hb, foldl_add_batches, flatten_map_singleton]

/-- Witness for C6: the example stream of five text deltas split into uneven
batches concatenates to the expected sentence. -/
theorem textOnly_content_concat_witness :
    (((([[{ role := "assistant", content := "I will ", toolCalls := [] },
         { role := "", content := "run ", toolCalls := [] }],
        [{ role := "", content := "the ", toolCalls := [] }],
        [{ role := "", content := "ls ", toolCalls := [] },
         { role := "", content := "command", toolCalls := [] }]] :
          List (List MessageDelta)).map
        (fun b => ChatCompletionChunk.mk (b.map ChunkChoice.mk))).foldl
        DeltaAccumulator.Add NewDeltaAccumulator).Message).content
      = "I will run the ls command" := by
  rw [(textOnly_content_concat _ (by decide)).1]
  decide

/-! ## The two divergent finalizations -/

theorem foldl_add_toolCalls_nil (cs : List ChatCompletionChunk) (a : DeltaAccumulator)
    (h : ∀ c ∈ cs, ∀ ch ∈ c.choices, ch.delta.toolCalls = []) :
    (cs.foldl DeltaAccumulator.Add a).toolCalls = a.toolCalls := by
  induction cs generalizing a with
  | nil => rfl
  | cons c rest ih =>
      rw [List.foldl_cons, ih _ (fun x hx => h x (List.mem_cons_of_mem c hx))]
      obtain ⟨choices⟩ := c
      rw [add_eq_foldl_applyDelta]
      apply foldl_applyDelta_toolCalls_nil
      intro d hd
      obtain ⟨ch, hch, hdel⟩ := List.mem_map.mp hd
      rw [← hdel]
      exact h _ (List.mem_cons_self _ _) ch hch

theorem messageStrip_eq_message_of_nil (a : DeltaAccumulator) (h : a.toolCalls = []) :
    a.MessageStrip = a.Message := by
  unfold DeltaAccumulator.MessageStrip DeltaAccumulator.Message
  rw [h]
  simp

/-- Claim C9: the two divergent finalizations agree whenever no tool-call
fragment was accumulated — for every such chunk stream the stripping version
and the plain version return the same message, with an empty tool-call list —
while on any accumulator state that does hold tool calls the stripping
version returns the content passed through `cleanToolCallContent`, the plain
version returns it verbatim, and the two agree on the tool-call list
itself. -/
theorem messageStrip_refinement (cs : List ChatCompletionChunk)
    (hke : ∀ c ∈ cs, ∀ ch ∈ c.choices, ch.delta.toolCalls = [])
    (a : DeltaAccumulator) (hne : ¬ a.toolCalls = []) :
    (cs.foldl DeltaAccumulator.Add NewDeltaAccumulator).MessageStrip
      = (cs.foldl DeltaAccumulator.Add NewDeltaAccumulator).Message
    ∧ ((cs.foldl DeltaAccumulator.Add NewDeltaAccumulator).Message).toolCalls = []
    ∧ (a.MessageStrip).content = cleanToolCallContent a.content
    ∧ (a.Message).content = a.content
    ∧ (a.MessageStrip).toolCalls = (a.Message).toolCalls := by
  have htc : (cs.foldl DeltaAccumulator.Add NewDeltaAccumulator).toolCalls = [] :=
    foldl_add_toolCalls_nil cs NewDeltaAccumulator hke
  have hempty : a.toolCalls.isEmpty = false := by
    cases hx : a.toolCalls
    · exact absurd hx hne
    · rfl
  refine ⟨messageStrip_eq_message_of_nil _ htc, ?_, ?_, message_content_eq a, ?_⟩
  · unfold DeltaAccumulator.Message
    rw [htc]
    simp
  · unfold DeltaAccumulator.MessageStrip
    rw [hempty]
    simp
  · unfold DeltaAccumulator.MessageStrip DeltaAccumulator.Message
    rw [hempty]
    simp

/-- Witness for C9: a one-chunk text-only stream satisfies the no-fragment
hypothesis, and an accumulator holding one tool call satisfies the other. -/
theorem messageStrip_refinement_witness :
    c9Acc.MessageStrip.content = cleanToolCallContent "done" :=
  (messageStrip_refinement [demoChunk] (by decide) c9Acc (by decide)).2.2.1

/-! ## Orchestrator per-delta display filtering -/

theorem foldl_applyToolCallDelta_isSome_mono (tcds : List ToolCallDelta) :
    ∀ (m : List (Int × ToolCall)) (i : Int),
      (mapLookup m i).isSome = true →
      (mapLookup (tcds.foldl applyToolCallDelta m) i).isSome = true := by
  induction tcds with
  | nil => intro m i h; exact h
  | cons t rest ih =>
      intro m i h
      rw [List.foldl_cons]
      apply ih
      rw [applyToolCallDelta_lookup_isSome]
      by_cases h2 : t.index = i <;> simp [h2, h]

theorem foldl_applyToolCallDelta_present (tcds : List ToolCallDelta) :
    ∀ (m : List (Int × ToolCall)) (tcd : ToolCallDelta), tcd ∈ tcds →
      (mapLookup (tcds.foldl applyToolCallDelta m) tcd.index).isSome = true := by
  induction tcds with
  | nil => intro m tcd hmem; cases hmem
  | cons t rest ih =>
      intro m tcd hmem
      rw [List.foldl_cons]
      rcases List.mem_cons.mp hmem with h1 | h2
      · subst h1
        apply foldl_applyToolCallDelta_isSome_mono
        rw [applyToolCallDelta_lookup_isSome]
        simp
      · exact ih _ tcd h2

theorem stripSpecialTokens_empty : stripSpecialTokens "" = "" := by decide

/-- Claim C5: a delta carrying at least one tool-call fragment contributes
nothing to the visible token stream (per choice and for a whole chunk built
from it), yet each of its tool-call fragments is still folded into the
accumulated message (its index has an entry after `applyDelta`); a delta with
no tool-call fragments is forwarded as its content with the known
model-specific sentinel tokens stripped. -/
theorem agent_display_filter (a : DeltaAccumulator) (d : MessageDelta)
    (tcd : ToolCallDelta) (hmem : tcd ∈ d.toolCalls) :
    displayedForChoice { delta := d } = ""
    ∧ agentCallbackOutput { choices := [{ delta := d }] } = ""
    ∧ (mapLookup ((applyDelta a d).toolCalls) tcd.index).isSome = true
    ∧ ∀ d2 : MessageDelta, d2.toolCalls = [] →
        displayedForChoice { delta := d2 } = stripSpecialTokens d2.content := by
  have hne : d.toolCalls ≠ [] := by
    intro hh
    rw [hh] at hmem
    cases hmem
  have hlen : d.toolCalls.length > 0 := List.length_pos.mpr hne
  have h1 : displayedForChoice { delta := d } = "" := by
    unfold displayedForChoice
    simp [hlen]
  refine ⟨h1, ?_, ?_, ?_⟩
  · show "" ++ displayedForChoice { delta := d } = ""
    rw [h1]
    rfl
  · show (mapLookup (d.toolCalls.foldl applyToolCallDelta a.toolCalls) tcd.index).isSome
      = true
    exact foldl_applyToolCallDelta_present d.toolCalls a.toolCalls tcd hmem
  · intro d2 h2
    unfold displayedForChoice
    rw [h2]
    simp only [List.length_nil, gt_iff_lt, Nat.lt_irrefl, if_false]
    by_cases hc : d2.content = ""
    · rw [if_pos hc, hc, stripSpecialTokens_empty]
    · rw [if_neg hc]
      by_cases hs : stripSpecialTokens d2.content = ""
      · simp [hs]
      · simp [hs]

/-- Witness for C5: a concrete delta that carries both content and a
tool-call fragment is suppressed, and a concrete text-only delta passes
through with a sentinel token stripped. -/
theorem agent_display_filter_witness :
    displayedForChoice
        { delta := { role := "", content := "\x7b\"p\":1", toolCalls := [c1Frag1] } } = ""
    ∧ displayedForChoice
        { delta := { role := "", content := "he<|im_end|>llo", toolCalls := [] } }
      = stripSpecialTokens "he<|im_end|>llo" :=
  ⟨(agent_display_filter NewDeltaAccumulator
      { role := "", content := "\x7b\"p\":1", toolCalls := [c1Frag1] } c1Frag1
      (by decide)).1,
   (agent_display_filter NewDeltaAccumulator
      { role := "", content := "x", toolCalls := [c1Frag1] } c1Frag1
      (by decide)).2.2.2
     { role := "", content := "he<|im_end|>llo", toolCalls := [] } rfl⟩

/-! ## Tool dispatch denial -/

/-- Claim C4: when lookup finds the tool, its tier requires approval, and the
permission handler answers false on the preview the dispatcher builds, the
dispatch returns the fixed denial text and the underlying `Execute` is never
invoked; the return type records that no orchestrator-level error exists on
this path (dispatch always yields result text). -/
theorem executeTool_denied (registry : List ToolImpl)
    (permCheck : String → String → Bool) (tc : ToolCall) (t : ToolImpl)
    (hget : registryGet registry tc.function.name = some t)
    (hperm : t.permission = PermissionLevel.prompt)
    (hdeny : permCheck tc.function.name (toolPreview t tc) = false) :
    executeTool registry permCheck tc
      = { result := "Permission denied by user", executeInvoked := false } := by
  unfold executeTool
  rw [hget]
  simp [hperm, hdeny]

/-- Witness for C4: a deny-all handler short-circuits the requires-approval
spy tool, whose execute is never invoked. -/
theorem executeTool_denied_witness :
    executeTool [spyTool] (fun _ _ => false) spyCall
      = { result := "Permission denied by user", executeInvoked := false } :=
  executeTool_denied [spyTool] (fun _ _ => false) spyCall spyTool rfl rfl rfl

/-! ## Orchestrator cancellation -/

theorem agentLoop_calls_le (registry : List ToolImpl)
    (permCheck : String → String → Bool) (ctxErrAt : Nat → Option String)
    (responses : List (Except String Message)) :
    ∀ (iter : Nat) (history : List Message) (i : Nat) (e2 : String),
      ctxErrAt (iter + i) = some e2 →
      (agentLoopModel registry permCheck ctxErrAt iter responses history).2 ≤ i := by
  induction responses with
  | nil =>
      intro iter history i e2 hc
      cases hx : ctxErrAt iter with
      | some e => simp [agentLoopModel, hx]
      | none =>
          cases i with
          | zero =>
              rw [Nat.add_zero] at hc
              rw [hc] at hx
              cases hx
          | succ j => simp [agentLoopModel, hx]
  | cons r rest ih =>
      intro iter history i e2 hc
      cases hx : ctxErrAt iter with
      | some e => simp [agentLoopModel, hx]
      | none =>
          cases i with
          | zero =>
              rw [Nat.add_zero] at hc
              rw [hc] at hx
              cases hx
          | succ j =>
              cases r with
              | error e => simp [agentLoopModel, hx]
              | ok msg =>
                  by_cases hm : msg.toolCalls.isEmpty
                  · simp [agentLoopModel, hx, hm]
                  · have heq : iter + 1 + j = iter + (j + 1) := by omega
                    have hrec := ih (iter + 1)
                      ((history ++ [msg]) ++ msg.toolCalls.map (fun tc =>
                        { role := "tool",
                          content := (executeTool registry permCheck tc).result,
                          toolCalls := [], toolCallId := tc.id,
                          name := tc.function.name })) j e2 (by rw [heq]; exact hc)
                    simp only [agentLoopModel, hx, hm, if_false, Bool.false_eq_true]
                    omega

/-- Claim C8: a turn started with a context already cancelled at the first
loop check terminates immediately with the distinguished cancellation error
wrapping the context error, and issues zero completion requests; more
generally the cancellation check at the top of every loop iteration bounds
the number of completion requests by the index of any cancelled iteration. -/
theorem agentSend_cancelled (registry : List ToolImpl)
    (permCheck : String → String → Bool) (ctxErrAt : Nat → Option String)
    (responses : List (Except String Message)) (history : List Message)
    (userText : String) (e : String) (hc : ctxErrAt 0 = some e) :
    agentSendModel registry permCheck ctxErrAt responses history userText
      = (Except.error (AgentError.cancelled ("agent cancelled: " ++ e)), 0)
    ∧ ∀ i e2, ctxErrAt i = some e2 →
        (agentSendModel registry permCheck ctxErrAt responses history userText).2 ≤ i := by
  constructor
  · unfold agentSendModel
    cases responses <;> simp [agentLoopModel, hc]
  · intro i e2 h2
    unfold agentSendModel
    exact agentLoop_calls_le registry permCheck ctxErrAt responses 0 _ i e2
      (by rw [Nat.zero_add]; exact h2)

/-- Witness for C8: with a context cancelled from the start, a scripted turn
makes no network call and surfaces the wrapped cancellation error. -/
theorem agentSend_cancelled_witness :
    agentSendModel [] (fun _ _ => false) (fun _ => some "context canceled") [] [] "hi"
      = (Except.error (AgentError.cancelled ("agent cancelled: " ++ "context canceled")), 0) :=
  (agentSend_cancelled [] (fun _ _ => false) (fun _ => some "context canceled") [] [] "hi"
    "context canceled" rfl).1

/-! ## Streaming client callback order -/

theorem streamTraceAux_get (cs : List ChatCompletionChunk) :
    ∀ (acc : DeltaAccumulator) (i : Nat),
      (streamTraceAux acc cs)[i]? =
        if h : i < cs.length then
          some ((cs.take (i + 1)).foldl DeltaAccumulator.Add acc, cs.get ⟨i, h⟩)
        else none := by
  induction cs with
  | nil => intro acc i; simp [streamTraceAux]
  | cons c rest ih =>
      intro acc i
      cases i with
      | zero => simp [streamTraceAux]
      | succ j =>
          rw [streamTraceAux, List.getElem?_cons_succ, ih (acc.Add c) j]
          by_cases h : j < rest.length
          · rw [dif_pos h,
              dif_pos (show j + 1 < (c :: rest).length by
                simpa using Nat.succ_lt_succ h)]
            simp [List.take_succ_cons]
          · rw [dif_neg h,
              dif_neg (show ¬ (j + 1 < (c :: rest).length) by
                simpa using fun hh => h (Nat.lt_of_succ_lt_succ hh))]

/-- Claim C2 (amended): the `onDelta` callback is invoked once per parsed
chunk in stream order, and the accumulator state current at the moment the
callback observes the i-th chunk already includes that chunk — it equals the
fold of chunks 0..i inclusive (the client folds each chunk into the
accumulator before invoking the callback). -/
theorem streamCallback_observes_folded (chunks : List ChatCompletionChunk) (i : Nat) :
    (streamCallbackTrace chunks)[i]? =
      if h : i < chunks.length then
        some ((chunks.take (i + 1)).foldl DeltaAccumulator.Add NewDeltaAccumulator,
          chunks.get ⟨i, h⟩)
      else none :=
  streamTraceAux_get chunks NewDeltaAccumulator i

/-- Claim C2 counterexample: on a one-chunk stream the accumulator state the
callback observes is the state with the chunk already folded in, not the
pre-fold state — refuting that the callback runs before the delta is folded
into the accumulator. -/
theorem streamCallback_preFold_false :
    ((streamCallbackTrace [demoChunk]).map Prod.fst).head?
        = some (NewDeltaAccumulator.Add demoChunk)
    ∧ ¬ (((streamCallbackTrace [demoChunk]).map Prod.fst).head?
        = some NewDeltaAccumulator) := by
  decide

/-! ## Front-end reader discipline and permission keys -/

/-- Claim C3 (documents the code bug): `App.Init` leaves exactly one
outstanding `WaitForEvent` reader, but the SendMsg branch of `App.Update`
arms a second one without consuming any, so the state reached by Init
followed by one SendMsg has two concurrent readers racing on the bridge
channel, and the count stays at two across every bridge event of the turn.
AgentDoneMsg comes from the `runAgent` command, consuming no bridge reader
and arming none, so the duplicate persists and a second turn raises the count
to three. This contradicts the single-reader invariant the claim states and
the intent documented by the repository's own regression tests. -/
theorem app_sendMsg_duplicate_reader :
    readersAfter [] = 1
    ∧ readersAfter [TeaMsg.send] = 2
    ∧ readersAfter [TeaMsg.send, TeaMsg.token] = 2
    ∧ readersAfter [TeaMsg.send, TeaMsg.token, TeaMsg.toolStart] = 2
    ∧ readersAfter [TeaMsg.send, TeaMsg.agentDone, TeaMsg.send] = 3 := by
  decide

/-- Claim C7 counterexample: during an outstanding permission prompt the quit
key issues `tea.Quit` while writing nothing to the acknowledgment sink — the
claim that quitting resolves the sink with a deny (writes false) before
quitting is false on the code. -/
theorem quitDuringPermission_leaves_sink :
    (handlePermissionKey PermKey.quit).quitIssued = true
    ∧ ¬ ((handlePermissionKey PermKey.quit).resolved = some false) := by
  decide

/-- Claim C7 (amended): during a permission prompt the allow key resolves the
outstanding sink with true and clears the request, the deny key resolves it
with false and clears it, any other key leaves everything untouched — but the
quit key ends the session immediately without resolving the sink, so the
blocked execution context is left unresolved on quit. -/
theorem handlePermissionKey_resolution :
    (handlePermissionKey PermKey.allow).resolved = some true
    ∧ (handlePermissionKey PermKey.allow).permReqCleared = true
    ∧ (handlePermissionKey PermKey.allow).quitIssued = false
    ∧ (handlePermissionKey PermKey.deny).resolved = some false
    ∧ (handlePermissionKey PermKey.deny).permReqCleared = true
    ∧ (handlePermissionKey PermKey.deny).quitIssued = false
    ∧ (handlePermissionKey PermKey.quit).quitIssued = true
    ∧ (handlePermissionKey PermKey.quit).resolved = none
    ∧ handlePermissionKey PermKey.other
        = { resolved := none, permReqCleared := false, quitIssued := false } := by
  decide

/-! ## Line-prompt permission checker -/

theorem checkerCheck_cons (line : String) (rest : List String) :
    checkerCheck (line :: rest) =
      match (goTrimSpace line).data with
      | [] => false
      | c :: _ => (c = 'y' || c = 'Y') := rfl

/-- Claim C10: the line-prompt handler approves exactly when a line is read
and its whitespace-trimmed form is non-empty with first character y or Y; on
exhausted input it denies, so every unanswered or malformed prompt defaults
to denial. -/
theorem checkerCheck_iff (input : List String) :
    (checkerCheck input = true ↔
      ∃ line rest, input = line :: rest ∧
        ∃ c cs, (goTrimSpace line).data = c :: cs ∧ (c = 'y' ∨ c = 'Y'))
    ∧ checkerCheck [] = false := by
  refine ⟨?_, rfl⟩
  cases input with
  | nil =>
      constructor
      · intro h
        cases h
      · rintro ⟨line, rest, hcons, -⟩
        cases hcons
  | cons line rest =>
      rw [checkerCheck_cons]
      constructor
      · intro h
        refine ⟨line, rest, rfl, ?_⟩
        cases hd : (goTrimSpace line).data with
        | nil =>
            rw [hd] at h
            simp at h
        | cons c cs =>
            rw [hd] at h
            refine ⟨c, cs, rfl, ?_⟩
            simpa using h
      · rintro ⟨line2, rest2, hcons, c, cs, hdata, hy⟩
        cases hcons
        rw [hdata]
        rcases hy with h | h <;> simp [h]

end Stormtrooper
